import Mathlib

/-
Verification development for the ChallengeEscrow contract and the
client-side transaction retry loop of useBlockchainChallenge.

Shallow embedding conventions:
- Addresses and uint256 values are Nat; address 0 is the null address.
- Solidity 0.8 checked arithmetic is explicit: a subtraction that would
  underflow aborts the call with an ArithmeticUnderflow error.
- A revert rolls back the whole call: each operation returns
  Except EscrowError (newState, events, tokenMoves); on error the caller
  keeps the old state (see stepOp).
- The external ERC20 token contract is abstracted: the SafeERC20 calls
  made by the escrow are recorded as TokenMove values in call order.
-/

namespace ChallengeEscrow

/-- One locked stake record, mirroring struct LockedStake. -/
structure LockedStake where
  token : Nat
  amount : Nat
  lockedAt : Nat
  challengeId : Nat
  released : Bool
deriving DecidableEq, Repr

/-- Contract storage: owner (Ownable), challengeFactory, and the three
mappings totalLockedByToken, challengeParticipants, challengeStakes. -/
@[ext]
structure EscrowState where
  owner : Nat
  challengeFactory : Nat
  totalLockedByToken : Nat → Nat → Nat
  challengeParticipants : Nat → List Nat
  challengeStakes : Nat → List LockedStake

/-- Revert reasons, following the error taxonomy of the design document:
the onlyFactory and onlyOwner require statements map to Unauthorized, the
argument require statements map to InvalidArgument, a rejected ERC20
movement maps to TransferFailed, and a Solidity 0.8 checked-arithmetic
panic maps to ArithmeticUnderflow. -/
inductive EscrowError where
  | Unauthorized
  | InvalidArgument
  | TransferFailed
  | ArithmeticUnderflow
deriving DecidableEq, Repr

/-- Emitted contract events. -/
inductive Event where
  | StakeLocked (user token amount challengeId : Nat)
  | StakeReleased (user token amount challengeId : Nat)
  | StakeTransferred (fromA toA token amount challengeId : Nat) (reason : String)
  | ChallengeFactoryUpdated (newFactory : Nat)
deriving DecidableEq, Repr

/-- ERC20 movements performed by the escrow, in call order.
transferOut token dst amount is IERC20(token).safeTransfer(dst, amount);
transferIn token src amount is IERC20(token).safeTransferFrom(src, this, amount). -/
inductive TokenMove where
  | transferOut (token dst amount : Nat)
  | transferIn (token src amount : Nat)
deriving DecidableEq, Repr

/-- Pointwise update of a one-key mapping. -/
def upd1 {α : Type} (m : Nat → α) (k : Nat) (v : α) : Nat → α :=
  fun x => if x = k then v else m x

/-- Pointwise update of a two-key mapping. -/
def upd2 {α : Type} (m : Nat → Nat → α) (k1 k2 : Nat) (v : α) : Nat → Nat → α :=
  fun x y => if x = k1 ∧ y = k2 then v else m x y

/-- Solidity 0.8 checked subtraction: reverts on underflow. -/
def subChecked (a b : Nat) : Except EscrowError Nat :=
  if b ≤ a then .ok (a - b) else .error .ArithmeticUnderflow

abbrev CallResult := Except EscrowError (EscrowState × List Event × List TokenMove)

/-- function lockStake(address user, address token, uint256 amount,
uint256 challengeId) external onlyFactory nonReentrant.
The now argument is block.timestamp. -/
def lockStake (s : EscrowState) (sender user token amount challengeId now : Nat) :
    CallResult :=
  if sender ≠ s.challengeFactory then .error .Unauthorized
  else if user = 0 then .error .InvalidArgument
  else if token = 0 then .error .InvalidArgument
  else if amount = 0 then .error .InvalidArgument
  else
    .ok ({ s with
            challengeStakes := upd1 s.challengeStakes challengeId
              (s.challengeStakes challengeId ++
                [{ token := token, amount := amount, lockedAt := now,
                   challengeId := challengeId, released := false }]),
            totalLockedByToken := upd2 s.totalLockedByToken user token
              (s.totalLockedByToken user token + amount),
            challengeParticipants := upd1 s.challengeParticipants challengeId
              (s.challengeParticipants challengeId ++ [user]) },
         [Event.StakeLocked user token amount challengeId],
         [TokenMove.transferIn token sender amount])

/-- Inner loop of releaseStakes: for a fixed entry user of the users array,
walk the stakes array of the challenge in index order; every stake whose
released flag is false is transferred to user (not to its depositor: the
code never consults challengeParticipants), the balance entry of user for
the stake token is decremented with checked arithmetic, and the flag is set. -/
def releaseInner (user challengeId : Nat) :
    List LockedStake → (Nat → Nat → Nat) →
    Except EscrowError (List LockedStake × (Nat → Nat → Nat) × List Event × List TokenMove)
  | [], bal => .ok ([], bal, [], [])
  | st :: rest, bal =>
    if st.released then
      match releaseInner user challengeId rest bal with
      | .error e => .error e
      | .ok (rest2, bal2, evs, mvs) => .ok (st :: rest2, bal2, evs, mvs)
    else
      match subChecked (bal user st.token) st.amount with
      | .error e => .error e
      | .ok nb =>
        match releaseInner user challengeId rest (upd2 bal user st.token nb) with
        | .error e => .error e
        | .ok (rest2, bal2, evs, mvs) =>
          .ok ({ st with released := true } :: rest2, bal2,
               Event.StakeReleased user st.token st.amount challengeId :: evs,
               TokenMove.transferOut st.token user st.amount :: mvs)

/-- Outer loop of releaseStakes over the users array. -/
def releaseOuter (challengeId : Nat) :
    List Nat → List LockedStake → (Nat → Nat → Nat) →
    Except EscrowError (List LockedStake × (Nat → Nat → Nat) × List Event × List TokenMove)
  | [], stakes, bal => .ok (stakes, bal, [], [])
  | user :: rest, stakes, bal =>
    match releaseInner user challengeId stakes bal with
    | .error e => .error e
    | .ok (stakes1, bal1, evs1, mvs1) =>
      match releaseOuter challengeId rest stakes1 bal1 with
      | .error e => .error e
      | .ok (stakes2, bal2, evs2, mvs2) =>
        .ok (stakes2, bal2, evs1 ++ evs2, mvs1 ++ mvs2)

/-- function releaseStakes(uint256 challengeId, address[] calldata users)
external onlyFactory nonReentrant. -/
def releaseStakes (s : EscrowState) (sender challengeId : Nat) (users : List Nat) :
    CallResult :=
  if sender ≠ s.challengeFactory then .error .Unauthorized
  else
    match releaseOuter challengeId users (s.challengeStakes challengeId)
        s.totalLockedByToken with
    | .error e => .error e
    | .ok (stakes2, bal2, evs, mvs) =>
      .ok ({ s with challengeStakes := upd1 s.challengeStakes challengeId stakes2,
                    totalLockedByToken := bal2 }, evs, mvs)

/-- function transferStake(address from, address to, address token,
uint256 amount, uint256 challengeId) external onlyFactory nonReentrant. -/
def transferStake (s : EscrowState) (sender fromA toA token amount challengeId : Nat) :
    CallResult :=
  if sender ≠ s.challengeFactory then .error .Unauthorized
  else if fromA = 0 then .error .InvalidArgument
  else if toA = 0 then .error .InvalidArgument
  else if token = 0 then .error .InvalidArgument
  else if amount = 0 then .error .InvalidArgument
  else
    match subChecked (s.totalLockedByToken fromA token) amount with
    | .error e => .error e
    | .ok nb =>
      .ok ({ s with totalLockedByToken := upd2 s.totalLockedByToken fromA token nb },
           [Event.StakeTransferred fromA toA token amount challengeId
              "Challenge settlement"],
           [TokenMove.transferOut token toA amount])

/-- function setChallengeFactory(address newFactory) external onlyOwner. -/
def setChallengeFactory (s : EscrowState) (sender newFactory : Nat) : CallResult :=
  if sender ≠ s.owner then .error .Unauthorized
  else if newFactory = 0 then .error .InvalidArgument
  else
    .ok ({ s with challengeFactory := newFactory },
         [Event.ChallengeFactoryUpdated newFactory], [])

/-- One external call to the contract. -/
inductive Op where
  | lock (sender user token amount challengeId now : Nat)
  | release (sender challengeId : Nat) (users : List Nat)
  | transfer (sender fromA toA token amount challengeId : Nat)
  | setFactory (sender newFactory : Nat)
deriving DecidableEq, Repr

/-- Dispatch one call. -/
def runOp (s : EscrowState) : Op → CallResult
  | .lock sender user token amount challengeId now =>
      lockStake s sender user token amount challengeId now
  | .release sender challengeId users => releaseStakes s sender challengeId users
  | .transfer sender fromA toA token amount challengeId =>
      transferStake s sender fromA toA token amount challengeId
  | .setFactory sender newFactory => setChallengeFactory s sender newFactory

/-- EVM revert semantics: a call that errors leaves the state unchanged. -/
def stepOp (s : EscrowState) (op : Op) : EscrowState :=
  match runOp s op with
  | .ok (s2, _, _) => s2
  | .error _ => s

/-- Run a sequence of external calls. -/
def execOps (s : EscrowState) : List Op → EscrowState
  | [] => s
  | op :: ops => execOps (stepOp s op) ops

/-- Freshly constructed contract: constructor(address challengeFactory). -/
def initState (owner factory : Nat) : EscrowState :=
  { owner := owner, challengeFactory := factory,
    totalLockedByToken := fun _ _ => 0,
    challengeParticipants := fun _ => [],
    challengeStakes := fun _ => [] }

/-- The successful branch of lockStake, spelled out. -/
def lockedState (s : EscrowState) (user token amount challengeId now : Nat) : EscrowState :=
  { s with
      challengeStakes := upd1 s.challengeStakes challengeId
        (s.challengeStakes challengeId ++
          [{ token := token, amount := amount, lockedAt := now,
             challengeId := challengeId, released := false }]),
      totalLockedByToken := upd2 s.totalLockedByToken user token
        (s.totalLockedByToken user token + amount),
      challengeParticipants := upd1 s.challengeParticipants challengeId
        (s.challengeParticipants challengeId ++ [user]) }

/-- Forget the released flag of a stake record. -/
def clearReleased (st : LockedStake) : LockedStake :=
  { st with released := false }

/-- Sum of the amounts of the unreleased stake records owned by user u for
token t within one challenge: the stake array and the participants array
are read in parallel, the participant at index i being the owner of the
stake at index i. -/
def ownedUnreleasedSum : List LockedStake → List Nat → Nat → Nat → Nat
  | st :: ss, p :: ps, u, t =>
      (if p = u ∧ st.token = t ∧ st.released = false then st.amount else 0) +
      ownedUnreleasedSum ss ps u t
  | _, _, _, _ => 0

/-- Sum of the amounts of the unreleased stake records owned by u for t
over the challenges listed in cids. -/
def totalOwnedUnreleased (s : EscrowState) (cids : List Nat) (u t : Nat) : Nat :=
  (cids.map (fun c =>
    ownedUnreleasedSum (s.challengeStakes c) (s.challengeParticipants c) u t)).sum

/-- The balance bookkeeping invariant relative to a list of challenge ids:
stake and participant arrays are parallel, and each LockedBalance entry is
the sum of the unreleased stakes owned by that user for that token. -/
def BalInv (s : EscrowState) (cids : List Nat) : Prop :=
  (∀ c, (s.challengeStakes c).length = (s.challengeParticipants c).length) ∧
  (∀ u t, s.totalLockedByToken u t = totalOwnedUnreleased s cids u t)

/-- Boolean test: the operation is a lockStake call whose challengeId lies
in cids. -/
def isLockWithin (cids : List Nat) : Op → Bool
  | .lock _ _ _ _ challengeId _ => decide (challengeId ∈ cids)
  | _ => false

/-- State with one stake: user 1 locked 100 of token 1 for challenge 7. -/
def c3State : EscrowState := lockedState (initState 9 5) 1 1 100 7 0

/-- c3State after transferStake(1, 2, token 1, 40, 7). -/
def c3After : EscrowState := stepOp c3State (.transfer 5 1 2 1 40 7)

/-- State after user 1 locks 100 of token 1 for challenge 7 and user 2
locks 100 of token 1 for challenge 8 (factory 5, owner 9). -/
def c1Start : EscrowState :=
  execOps (initState 9 5) [.lock 5 1 1 100 7 0, .lock 5 2 1 100 8 0]

/-- c1Start after releaseStakes(7, [2]). -/
def c1After : EscrowState := stepOp c1Start (.release 5 7 [2])

/-- State after user 1 locks 100 of token 1 for challenge 7. -/
def c4Start : EscrowState := execOps (initState 9 5) [.lock 5 1 1 100 7 0]

/-- c4Start after releaseStakes(7, [1]). -/
def c4Mid : EscrowState := stepOp c4Start (.release 5 7 [1])

/-- State after lockStake(user 1, token 1, 100, challenge 7) followed by
transferStake(1, 2, token 1, 100, challenge 7). -/
def c2Bad : EscrowState :=
  execOps (initState 9 5) [.lock 5 1 1 100 7 0, .transfer 5 1 2 1 100 7]

/-- State after two locks by user 1 of token 1 for challenge 7. -/
def c2Good : EscrowState :=
  execOps (initState 9 5) [.lock 5 1 1 100 7 0, .lock 5 1 1 50 7 0]

end ChallengeEscrow

namespace Submitter

/-
Embedding of retryTransaction from useBlockchainChallenge.ts.
An attempt function is modelled as a map from the attempt number
(1-based, as in the source loop) to the outcome of that attempt.
The userCancelled flag of an error abstracts the source classification
of the caught error: message includes user rejected or User denied, or
code equals ACTION_REJECTED.
-/

/-- Successful transaction outcome, mirroring TransactionResult
(status is always the success tag and is omitted). -/
structure TransactionResult where
  transactionHash : Nat
  blockNumber : Nat
deriving DecidableEq, Repr

/-- A thrown error, with its cancellation classification. -/
structure TxError where
  userCancelled : Bool
  code : Nat
deriving DecidableEq, Repr

def MAX_RETRIES : Nat := 3

def RETRY_DELAY : Nat := 2000

/-- The retry loop body, from the iteration at the given attempt number.
The fuel argument counts the remaining loop iterations, so the loop
invariant of the source (attempt runs 1 to MAX_RETRIES) corresponds to
fuel = MAX_RETRIES - attempt + 1. The result records the outcome, the
number of attempts performed, and the list of delays awaited between
attempts. The fuel-exhausted case is the trailing throw lastError line
of the source, unreachable from the top-level entry point. -/
def retryFrom (fn : Nat → Except TxError TransactionResult) :
    Option TxError → Nat → Nat → Except TxError TransactionResult × Nat × List Nat
  | last, _, 0 =>
    ((match last with
      | some e => .error e
      | none => .error { userCancelled := false, code := 0 }), 0, [])
  | _, attempt, fuel + 1 =>
    match fn attempt with
    | .ok v => (.ok v, 1, [])
    | .error e =>
      if e.userCancelled then (.error e, 1, [])
      else if attempt = MAX_RETRIES then (.error e, 1, [])
      else
        match retryFrom fn (some e) (attempt + 1) fuel with
        | (res, n, ds) => (res, n + 1, RETRY_DELAY :: ds)

/-- const retryTransaction = async (fn, operationName) => ... -/
def retryTransaction (fn : Nat → Except TxError TransactionResult) :
    Except TxError TransactionResult × Nat × List Nat :=
  retryFrom fn none 1 MAX_RETRIES

/-- Attempt function failing transiently on attempts 1 and 2 and
succeeding on attempt 3. -/
def fnTransientTwice : Nat → Except TxError TransactionResult :=
  fun n => if n = 3 then .ok { transactionHash := 7, blockNumber := 5 }
           else .error { userCancelled := false, code := n }

/-- Attempt function that fails with a user cancellation on every attempt. -/
def fnCancelled : Nat → Except TxError TransactionResult :=
  fun n => .error { userCancelled := true, code := n }

theorem retryFrom_count_le (fn : Nat → Except TxError TransactionResult) :
    ∀ (fuel : Nat) (last : Option TxError) (attempt : Nat),
      (retryFrom fn last attempt fuel).2.1 ≤ fuel := by
  intro fuel
  induction fuel with
  | zero => intro last attempt; simp [retryFrom]
  | succ n ih =>
    intro last attempt
    simp only [retryFrom]
    cases fn attempt with
    | ok v => simp
    | error e =>
      dsimp only
      by_cases hc : e.userCancelled = true
      · rw [if_pos hc]; simp
      · rw [if_neg hc]
        by_cases hm : attempt = MAX_RETRIES
        · rw [if_pos hm]; simp
        · rw [if_neg hm]
          have hle := ih (some e) (attempt + 1)
          cases hq : retryFrom fn (some e) (attempt + 1) n with
          | mk res rest =>
            cases rest with
            | mk n2 ds =>
              rw [hq] at hle
              dsimp only at hle ⊢
              omega

/-- Claim C8: the retry loop calls the attempt function at most MAX_RETRIES = 3
times; when the first two attempts fail with non-cancellation errors and
the third succeeds it returns the success result after exactly 3 attempts
with a fixed RETRY_DELAY = 2000 ms wait before each retry; when all 3
attempts fail with non-cancellation errors it fails with the last
observed error. -/
theorem retryTransaction_bounded_retry :
    (∀ (fn : Nat → Except TxError TransactionResult) (e1 e2 : TxError)
       (v : TransactionResult),
       fn 1 = .error e1 → e1.userCancelled = false →
       fn 2 = .error e2 → e2.userCancelled = false →
       fn 3 = .ok v →
       retryTransaction fn = (.ok v, 3, [RETRY_DELAY, RETRY_DELAY])) ∧
    (∀ fn, (retryTransaction fn).2.1 ≤ MAX_RETRIES) ∧
    (∀ (fn : Nat → Except TxError TransactionResult) (e1 e2 e3 : TxError),
       fn 1 = .error e1 → e1.userCancelled = false →
       fn 2 = .error e2 → e2.userCancelled = false →
       fn 3 = .error e3 →
       retryTransaction fn = (.error e3, 3, [RETRY_DELAY, RETRY_DELAY])) := by
  refine ⟨?_, ?_, ?_⟩
  · intro fn e1 e2 v h1 hc1 h2 hc2 h3
    simp [retryTransaction, retryFrom, MAX_RETRIES, RETRY_DELAY, h1, h2, h3, hc1, hc2]
  · intro fn
    exact retryFrom_count_le fn MAX_RETRIES none 1
  · intro fn e1 e2 e3 h1 hc1 h2 hc2 h3
    simp [retryTransaction, retryFrom, MAX_RETRIES, RETRY_DELAY, h1, h2, h3, hc1, hc2]

theorem retryTransaction_bounded_retry_witness :
    fnTransientTwice 1 = .error { userCancelled := false, code := 1 } ∧
    fnTransientTwice 3 = .ok { transactionHash := 7, blockNumber := 5 } ∧
    retryTransaction fnTransientTwice =
      (.ok { transactionHash := 7, blockNumber := 5 }, 3, [RETRY_DELAY, RETRY_DELAY]) :=
  ⟨rfl, rfl,
   retryTransaction_bounded_retry.1 fnTransientTwice
     { userCancelled := false, code := 1 } { userCancelled := false, code := 2 }
     { transactionHash := 7, blockNumber := 5 } rfl rfl rfl rfl rfl⟩

/-- Claim C9: an attempt that fails with a user-cancellation error stops the
loop at once: no delay is awaited and no further attempt is made,
whatever the remaining attempt budget is. -/
theorem retryTransaction_user_cancel_no_retry :
    (∀ (fn : Nat → Except TxError TransactionResult) (last : Option TxError)
       (attempt fuel : Nat) (e : TxError),
       fn attempt = .error e → e.userCancelled = true →
       retryFrom fn last attempt (fuel + 1) = (.error e, 1, [])) ∧
    (∀ (fn : Nat → Except TxError TransactionResult) (e : TxError),
       fn 1 = .error e → e.userCancelled = true →
       retryTransaction fn = (.error e, 1, [])) := by
  constructor
  · intro fn last attempt fuel e h hc
    simp [retryFrom, h, hc]
  · intro fn e h hc
    simp [retryTransaction, MAX_RETRIES, retryFrom, h, hc]

theorem retryTransaction_user_cancel_no_retry_witness :
    fnCancelled 1 = .error { userCancelled := true, code := 1 } ∧
    retryTransaction fnCancelled =
      (.error { userCancelled := true, code := 1 }, 1, []) :=
  ⟨rfl,
   retryTransaction_user_cancel_no_retry.2 fnCancelled
     { userCancelled := true, code := 1 } rfl rfl⟩

end Submitter

namespace ChallengeEscrow

/-! Helper lemmas shared by several results. -/

theorem stepOp_of_error (s : EscrowState) (op : Op) (e : EscrowError)
    (h : runOp s op = .error e) : stepOp s op = s := by
  unfold stepOp
  rw [h]

theorem upd1_self {α : Type} (m : Nat → α) (k : Nat) : upd1 m k (m k) = m := by
  funext x
  by_cases hx : x = k <;> simp [upd1, hx]

theorem upd1_at {α : Type} (m : Nat → α) (k : Nat) (v : α) : upd1 m k v k = v := by
  simp [upd1]

theorem upd1_ne {α : Type} (m : Nat → α) (k : Nat) (v : α) (x : Nat) (hx : x ≠ k) :
    upd1 m k v x = m x := by
  simp [upd1, hx]

theorem upd2_at {α : Type} (m : Nat → Nat → α) (k1 k2 : Nat) (v : α) :
    upd2 m k1 k2 v k1 k2 = v := by
  simp [upd2]

theorem upd2_ne {α : Type} (m : Nat → Nat → α) (k1 k2 : Nat) (v : α) (x y : Nat)
    (hx : x ≠ k1 ∨ y ≠ k2) : upd2 m k1 k2 v x y = m x y := by
  rcases hx with hx | hy
  · simp [upd2, hx]
  · simp [upd2, hy]

theorem subChecked_ok_of_le {a b : Nat} (h : b ≤ a) : subChecked a b = .ok (a - b) := by
  simp [subChecked, h]

theorem subChecked_err_of_lt {a b : Nat} (h : a < b) :
    subChecked a b = .error .ArithmeticUnderflow := by
  simp [subChecked, Nat.not_le.mpr h]

theorem subChecked_ok_inv {a b n : Nat} (h : subChecked a b = .ok n) :
    b ≤ a ∧ n = a - b := by
  by_cases hle : b ≤ a
  · rw [subChecked_ok_of_le hle] at h
    exact ⟨hle, (Except.ok.inj h).symm⟩
  · rw [subChecked_err_of_lt (Nat.lt_of_not_le hle)] at h
    cases h

theorem lockStake_success {s : EscrowState} {sender user token amount challengeId now : Nat}
    (hs : sender = s.challengeFactory) (hu : user ≠ 0) (ht : token ≠ 0) (ha : amount ≠ 0) :
    lockStake s sender user token amount challengeId now =
      .ok (lockedState s user token amount challengeId now,
           [Event.StakeLocked user token amount challengeId],
           [TokenMove.transferIn token sender amount]) := by
  unfold lockStake
  rw [if_neg (fun hne => hne hs), if_neg hu, if_neg ht, if_neg ha]
  rfl

theorem lockStake_invalid {s : EscrowState} {sender user token amount challengeId now : Nat}
    (hs : sender = s.challengeFactory) (h : user = 0 ∨ token = 0 ∨ amount = 0) :
    lockStake s sender user token amount challengeId now = .error .InvalidArgument := by
  unfold lockStake
  rw [if_neg (fun hne => hne hs)]
  by_cases hu : user = 0
  · rw [if_pos hu]
  · rw [if_neg hu]
    by_cases ht : token = 0
    · rw [if_pos ht]
    · rw [if_neg ht]
      rcases h with h | h | h
      · exact absurd h hu
      · exact absurd h ht
      · rw [if_pos h]

theorem transferStake_ok_inv {s s2 : EscrowState}
    {sender fromA toA token amount challengeId : Nat}
    {evs : List Event} {mvs : List TokenMove}
    (h : transferStake s sender fromA toA token amount challengeId = .ok (s2, evs, mvs)) :
    sender = s.challengeFactory ∧ fromA ≠ 0 ∧ toA ≠ 0 ∧ token ≠ 0 ∧ amount ≠ 0 ∧
    amount ≤ s.totalLockedByToken fromA token ∧
    s2 = { s with totalLockedByToken := upd2 s.totalLockedByToken fromA token
                    (s.totalLockedByToken fromA token - amount) } ∧
    evs = [Event.StakeTransferred fromA toA token amount challengeId "Challenge settlement"] ∧
    mvs = [TokenMove.transferOut token toA amount] := by
  unfold transferStake at h
  by_cases h1 : sender ≠ s.challengeFactory
  · rw [if_pos h1] at h; cases h
  rw [if_neg h1] at h
  by_cases h2 : fromA = 0
  · rw [if_pos h2] at h; cases h
  rw [if_neg h2] at h
  by_cases h3 : toA = 0
  · rw [if_pos h3] at h; cases h
  rw [if_neg h3] at h
  by_cases h4 : token = 0
  · rw [if_pos h4] at h; cases h
  rw [if_neg h4] at h
  by_cases h5 : amount = 0
  · rw [if_pos h5] at h; cases h
  rw [if_neg h5] at h
  by_cases hle : amount ≤ s.totalLockedByToken fromA token
  · rw [subChecked_ok_of_le hle] at h
    obtain ⟨hs2, hrest⟩ := Prod.mk.injEq .. ▸ Except.ok.inj h
    obtain ⟨hevs, hmvs⟩ := Prod.mk.injEq .. ▸ hrest
    exact ⟨Classical.byContradiction (fun hc => h1 hc), h2, h3, h4, h5, hle,
           hs2.symm, hevs.symm, hmvs.symm⟩
  · rw [subChecked_err_of_lt (Nat.lt_of_not_le hle)] at h
    cases h

theorem transferStake_underflow {s : EscrowState}
    {sender fromA toA token amount challengeId : Nat}
    (hs : sender = s.challengeFactory) (h2 : fromA ≠ 0) (h3 : toA ≠ 0)
    (h4 : token ≠ 0) (h5 : amount ≠ 0)
    (hlt : s.totalLockedByToken fromA token < amount) :
    transferStake s sender fromA toA token amount challengeId =
      .error .ArithmeticUnderflow := by
  unfold transferStake
  rw [if_neg (fun hne => hne hs), if_neg h2, if_neg h3, if_neg h4, if_neg h5,
      subChecked_err_of_lt hlt]

/-- Claim C5: every mutating operation called by a non-authorized sender returns
Unauthorized (the factory-gated operations check the caller against
challengeFactory, setChallengeFactory checks against the Ownable owner),
and any erroring call leaves the whole state unchanged (all-or-nothing). -/
theorem unauthorized_calls_revert_without_state_change :
    (∀ (s : EscrowState) (sender user token amount challengeId now : Nat),
       sender ≠ s.challengeFactory →
       lockStake s sender user token amount challengeId now = .error .Unauthorized) ∧
    (∀ (s : EscrowState) (sender challengeId : Nat) (users : List Nat),
       sender ≠ s.challengeFactory →
       releaseStakes s sender challengeId users = .error .Unauthorized) ∧
    (∀ (s : EscrowState) (sender fromA toA token amount challengeId : Nat),
       sender ≠ s.challengeFactory →
       transferStake s sender fromA toA token amount challengeId =
         .error .Unauthorized) ∧
    (∀ (s : EscrowState) (sender newFactory : Nat),
       sender ≠ s.owner →
       setChallengeFactory s sender newFactory = .error .Unauthorized) ∧
    (∀ (s : EscrowState) (op : Op) (e : EscrowError),
       runOp s op = .error e → stepOp s op = s) := by
  refine ⟨?_, ?_, ?_, ?_, ?_⟩
  · intro s sender user token amount challengeId now h
    unfold lockStake
    rw [if_pos h]
  · intro s sender challengeId users h
    unfold releaseStakes
    rw [if_pos h]
  · intro s sender fromA toA token amount challengeId h
    unfold transferStake
    rw [if_pos h]
  · intro s sender newFactory h
    unfold setChallengeFactory
    rw [if_pos h]
  · intro s op e h
    exact stepOp_of_error s op e h

theorem unauthorized_calls_revert_without_state_change_witness :
    ((4:Nat) ≠ (initState 9 5).challengeFactory) ∧
    lockStake (initState 9 5) 4 1 1 100 7 0 = .error .Unauthorized ∧
    stepOp (initState 9 5) (.lock 4 1 1 100 7 0) = initState 9 5 :=
  ⟨by decide,
   unauthorized_calls_revert_without_state_change.1 (initState 9 5) 4 1 1 100 7 0 (by decide),
   unauthorized_calls_revert_without_state_change.2.2.2.2 (initState 9 5)
     (.lock 4 1 1 100 7 0) .Unauthorized
     (unauthorized_calls_revert_without_state_change.1 (initState 9 5) 4 1 1 100 7 0
       (by decide))⟩

/-- Claim C6: an authorized lockStake with non-null user and token and positive
amount appends exactly one unreleased StakeRecord to the challenge stake
array, increments the LockedBalance entry of (user, token) by amount, and
appends user to the participants array, pulling the tokens from the caller;
a null user or token or a zero amount makes the call fail with
InvalidArgument and change nothing. -/
theorem lockStake_functional_correctness :
    (∀ (s : EscrowState) (sender user token amount challengeId now : Nat),
       sender = s.challengeFactory → user ≠ 0 → token ≠ 0 → amount ≠ 0 →
       lockStake s sender user token amount challengeId now =
         .ok (lockedState s user token amount challengeId now,
              [Event.StakeLocked user token amount challengeId],
              [TokenMove.transferIn token sender amount])) ∧
    (∀ (s : EscrowState) (sender user token amount challengeId now : Nat),
       sender = s.challengeFactory → (user = 0 ∨ token = 0 ∨ amount = 0) →
       lockStake s sender user token amount challengeId now = .error .InvalidArgument ∧
       stepOp s (.lock sender user token amount challengeId now) = s) := by
  constructor
  · intro s sender user token amount challengeId now hs hu ht ha
    exact lockStake_success hs hu ht ha
  · intro s sender user token amount challengeId now hs h
    refine ⟨lockStake_invalid hs h, ?_⟩
    exact stepOp_of_error s (.lock sender user token amount challengeId now)
      .InvalidArgument (lockStake_invalid hs h)

theorem lockStake_functional_correctness_witness :
    ((5:Nat) = (initState 9 5).challengeFactory ∧ (1:Nat) ≠ 0 ∧ (2:Nat) ≠ 0 ∧
      (100:Nat) ≠ 0) ∧
    lockStake (initState 9 5) 5 1 2 100 7 3 =
      .ok (lockedState (initState 9 5) 1 2 100 7 3,
           [Event.StakeLocked 1 2 100 7], [TokenMove.transferIn 2 5 100]) ∧
    lockStake (initState 9 5) 5 0 2 100 7 3 = .error .InvalidArgument :=
  ⟨⟨rfl, by decide, by decide, by decide⟩,
   lockStake_functional_correctness.1 (initState 9 5) 5 1 2 100 7 3 rfl
     (by decide) (by decide) (by decide),
   (lockStake_functional_correctness.2 (initState 9 5) 5 0 2 100 7 3 rfl (Or.inl rfl)).1⟩

/-- Claim C3 counterexample: with LockedBalance[1,1] = 0 < 100, the call
transferStake(1, 2, token 1, 100, 7) from the factory reverts with the
Solidity 0.8 checked-arithmetic underflow panic, which is neither
TransferFailed nor InvalidArgument as the claim states. -/
theorem transferStake_error_kind_counterexample :
    (initState 9 5).totalLockedByToken 1 1 < 100 ∧
    transferStake (initState 9 5) 5 1 2 1 100 7 = .error .ArithmeticUnderflow ∧
    EscrowError.ArithmeticUnderflow ≠ EscrowError.TransferFailed ∧
    EscrowError.ArithmeticUnderflow ≠ EscrowError.InvalidArgument := by
  refine ⟨by decide, rfl, by decide, by decide⟩

/-- Claim C3 amended: a successful transferStake decreases LockedBalance[from,token]
by exactly amount, and amount never exceeds the old balance on success; when
amount exceeds the balance (with otherwise valid arguments) the call reverts
with an arithmetic underflow panic, leaving all state unchanged, so the
balance never wraps below zero. -/
theorem transferStake_exact_decrease_no_underflow :
    (∀ (s s2 : EscrowState) (sender fromA toA token amount challengeId : Nat)
       (evs : List Event) (mvs : List TokenMove),
       transferStake s sender fromA toA token amount challengeId = .ok (s2, evs, mvs) →
       amount ≤ s.totalLockedByToken fromA token ∧
       s2.totalLockedByToken fromA token = s.totalLockedByToken fromA token - amount) ∧
    (∀ (s : EscrowState) (sender fromA toA token amount challengeId : Nat),
       sender = s.challengeFactory → fromA ≠ 0 → toA ≠ 0 → token ≠ 0 → amount ≠ 0 →
       s.totalLockedByToken fromA token < amount →
       transferStake s sender fromA toA token amount challengeId =
         .error .ArithmeticUnderflow ∧
       stepOp s (.transfer sender fromA toA token amount challengeId) = s) := by
  constructor
  · intro s s2 sender fromA toA token amount challengeId evs mvs h
    obtain ⟨-, -, -, -, -, hle, hs2, -, -⟩ := transferStake_ok_inv h
    refine ⟨hle, ?_⟩
    rw [hs2]
    exact upd2_at ..
  · intro s sender fromA toA token amount challengeId hs h2 h3 h4 h5 hlt
    refine ⟨transferStake_underflow hs h2 h3 h4 h5 hlt, ?_⟩
    exact stepOp_of_error s (.transfer sender fromA toA token amount challengeId)
      .ArithmeticUnderflow (transferStake_underflow hs h2 h3 h4 h5 hlt)

theorem transferStake_exact_decrease_no_underflow_witness :
    transferStake c3State 5 1 2 1 40 7 =
      .ok (c3After,
           [Event.StakeTransferred 1 2 1 40 7 "Challenge settlement"],
           [TokenMove.transferOut 1 2 40]) ∧
    (40 ≤ c3State.totalLockedByToken 1 1 ∧
     c3After.totalLockedByToken 1 1 = c3State.totalLockedByToken 1 1 - 40) ∧
    (c3State.totalLockedByToken 1 1 < 200 ∧
     transferStake c3State 5 1 2 1 200 7 = .error .ArithmeticUnderflow) :=
  ⟨rfl,
   transferStake_exact_decrease_no_underflow.1 c3State c3After 5 1 2 1 40 7 _ _ rfl,
   by decide,
   (transferStake_exact_decrease_no_underflow.2 c3State 5 1 2 1 200 7 rfl
      (by decide) (by decide) (by decide) (by decide) (by decide)).1⟩

/-- Claim C7: transferStake is a pure aggregate-balance adjustment: a successful
call leaves the stake arrays, the participants arrays, the factory and owner
addresses, and every other (user, token) balance entry untouched. -/
theorem transferStake_frame :
    ∀ (s s2 : EscrowState) (sender fromA toA token amount challengeId : Nat)
      (evs : List Event) (mvs : List TokenMove),
      transferStake s sender fromA toA token amount challengeId = .ok (s2, evs, mvs) →
      s2.challengeStakes = s.challengeStakes ∧
      s2.challengeParticipants = s.challengeParticipants ∧
      s2.challengeFactory = s.challengeFactory ∧
      s2.owner = s.owner ∧
      (∀ u t, u ≠ fromA ∨ t ≠ token →
        s2.totalLockedByToken u t = s.totalLockedByToken u t) := by
  intro s s2 sender fromA toA token amount challengeId evs mvs h
  obtain ⟨-, -, -, -, -, -, hs2, -, -⟩ := transferStake_ok_inv h
  subst hs2
  refine ⟨rfl, rfl, rfl, rfl, ?_⟩
  intro u t hut
  exact upd2_ne _ _ _ _ u t hut

/-- Claim C1: the code contradicts the release specification. Address 2 owns no
stake in challenge 7 (the sole participant of challenge 7 is address 1),
yet releaseStakes(7, [2]) transfers the challenge-7 stake of owner 1 to
address 2 and decrements the balance of address 2, because the inner loop
releases every unreleased stake of the challenge to each listed address
without ever consulting challengeParticipants. -/
theorem releaseStakes_ignores_ownership :
    c1Start.challengeParticipants 7 = [1] ∧
    c1Start.challengeParticipants 8 = [2] ∧
    c1Start.challengeStakes 7 =
      [{ token := 1, amount := 100, lockedAt := 0, challengeId := 7,
         released := false }] ∧
    c1Start.totalLockedByToken 1 1 = 100 ∧
    c1Start.totalLockedByToken 2 1 = 100 ∧
    releaseStakes c1Start 5 7 [2] =
      .ok (c1After, [Event.StakeReleased 2 1 100 7],
           [TokenMove.transferOut 1 2 100]) ∧
    c1After.totalLockedByToken 2 1 = 0 ∧
    c1After.totalLockedByToken 1 1 = 100 ∧
    c1After.challengeStakes 7 =
      [{ token := 1, amount := 100, lockedAt := 0, challengeId := 7,
         released := true }] :=
  ⟨rfl, rfl, rfl, rfl, rfl, rfl, rfl, rfl, rfl⟩

theorem releaseInner_all_released (u cid : Nat) (stakes : List LockedStake) :
    ∀ (bal : Nat → Nat → Nat) stakes2 bal2 evs mvs,
      releaseInner u cid stakes bal = .ok (stakes2, bal2, evs, mvs) →
      ∀ st ∈ stakes2, st.released = true := by
  induction stakes with
  | nil =>
    intro bal stakes2 bal2 evs mvs h st hst
    simp only [releaseInner, Except.ok.injEq, Prod.mk.injEq] at h
    obtain ⟨h1, -, -, -⟩ := h
    rw [← h1] at hst
    simp at hst
  | cons st0 rest ih =>
    intro bal stakes2 bal2 evs mvs h st hst
    simp only [releaseInner] at h
    by_cases hr : st0.released = true
    · rw [if_pos hr] at h
      cases hrec : releaseInner u cid rest bal with
      | error e => rw [hrec] at h; cases h
      | ok q =>
        obtain ⟨rest2, balq, evsq, mvsq⟩ := q
        rw [hrec] at h
        simp only [Except.ok.injEq, Prod.mk.injEq] at h
        obtain ⟨h1, -, -, -⟩ := h
        rw [← h1] at hst
        rcases List.mem_cons.mp hst with hst | hst
        · rw [hst]; exact hr
        · exact ih bal rest2 balq evsq mvsq hrec st hst
    · rw [if_neg hr] at h
      cases hsub : subChecked (bal u st0.token) st0.amount with
      | error e => rw [hsub] at h; cases h
      | ok nb =>
        rw [hsub] at h
        dsimp only at h
        cases hrec : releaseInner u cid rest (upd2 bal u st0.token nb) with
        | error e => rw [hrec] at h; cases h
        | ok q =>
          obtain ⟨rest2, balq, evsq, mvsq⟩ := q
          rw [hrec] at h
          simp only [Except.ok.injEq, Prod.mk.injEq] at h
          obtain ⟨h1, -, -, -⟩ := h
          rw [← h1] at hst
          rcases List.mem_cons.mp hst with hst | hst
          · rw [hst]
          · exact ih _ rest2 balq evsq mvsq hrec st hst

theorem releaseInner_noop (u cid : Nat) (stakes : List LockedStake)
    (hall : ∀ st ∈ stakes, st.released = true) :
    ∀ bal, releaseInner u cid stakes bal = .ok (stakes, bal, [], []) := by
  induction stakes with
  | nil => intro bal; rfl
  | cons st0 rest ih =>
    intro bal
    have hr : st0.released = true := hall st0 (by simp)
    have hrest : ∀ st ∈ rest, st.released = true := fun st hst => hall st (by simp [hst])
    simp only [releaseInner]
    rw [if_pos hr, ih hrest bal]

theorem releaseOuter_noop (cid : Nat) (users : List Nat) (stakes : List LockedStake)
    (hall : ∀ st ∈ stakes, st.released = true) :
    ∀ bal, releaseOuter cid users stakes bal = .ok (stakes, bal, [], []) := by
  induction users with
  | nil => intro bal; rfl
  | cons u rest ih =>
    intro bal
    simp only [releaseOuter]
    rw [releaseInner_noop u cid stakes hall bal]
    dsimp only
    rw [ih bal]
    rfl

theorem releaseOuter_ok_inv (cid : Nat) (users : List Nat) (stakes : List LockedStake)
    (bal : Nat → Nat → Nat) (stakes2 : List LockedStake) (bal2 : Nat → Nat → Nat)
    (evs : List Event) (mvs : List TokenMove)
    (h : releaseOuter cid users stakes bal = .ok (stakes2, bal2, evs, mvs)) :
    (users = [] ∧ stakes2 = stakes ∧ bal2 = bal) ∨
    (∀ st ∈ stakes2, st.released = true) := by
  cases users with
  | nil =>
    left
    simp only [releaseOuter, Except.ok.injEq, Prod.mk.injEq] at h
    exact ⟨rfl, h.1.symm, h.2.1.symm⟩
  | cons u rest =>
    right
    simp only [releaseOuter] at h
    cases hinner : releaseInner u cid stakes bal with
    | error e => rw [hinner] at h; cases h
    | ok q =>
      obtain ⟨stakes1, bal1, evs1, mvs1⟩ := q
      have hall1 : ∀ st ∈ stakes1, st.released = true :=
        releaseInner_all_released u cid stakes bal stakes1 bal1 evs1 mvs1 hinner
      rw [hinner] at h
      dsimp only at h
      rw [releaseOuter_noop cid rest stakes1 hall1 bal1] at h
      dsimp only at h
      simp only [Except.ok.injEq, Prod.mk.injEq] at h
      obtain ⟨h1, -, -, -⟩ := h
      rw [← h1]
      exact hall1

theorem releaseStakes_ok_inv {s s1 : EscrowState} {sender cid : Nat} {users : List Nat}
    {evs : List Event} {mvs : List TokenMove}
    (h : releaseStakes s sender cid users = .ok (s1, evs, mvs)) :
    sender = s.challengeFactory ∧
    ∃ stakes2 bal2,
      releaseOuter cid users (s.challengeStakes cid) s.totalLockedByToken =
        .ok (stakes2, bal2, evs, mvs) ∧
      s1 = { s with challengeStakes := upd1 s.challengeStakes cid stakes2,
                    totalLockedByToken := bal2 } := by
  unfold releaseStakes at h
  by_cases hauth : sender ≠ s.challengeFactory
  · rw [if_pos hauth] at h; cases h
  rw [if_neg hauth] at h
  cases houter : releaseOuter cid users (s.challengeStakes cid) s.totalLockedByToken with
  | error e => rw [houter] at h; cases h
  | ok q =>
    obtain ⟨stakes2, bal2, evs2, mvs2⟩ := q
    rw [houter] at h
    simp only [Except.ok.injEq, Prod.mk.injEq] at h
    obtain ⟨h1, h2, h3⟩ := h
    exact ⟨not_not.mp hauth, stakes2, bal2, by rw [h2, h3], h1.symm⟩

/-- Claim C4: releaseStakes is idempotent per stake. After any successful
releaseStakes, repeating the call with the same challengeId and users
succeeds while transferring no tokens and emitting no event, because every
stake whose released flag is already true is skipped. -/
theorem releaseStakes_idempotent :
    ∀ (s s1 : EscrowState) (sender challengeId : Nat) (users : List Nat)
      (evs : List Event) (mvs : List TokenMove),
      releaseStakes s sender challengeId users = .ok (s1, evs, mvs) →
      releaseStakes s1 sender challengeId users = .ok (s1, [], []) := by
  intro s s1 sender cid users evs mvs h
  obtain ⟨hauth, stakes2, bal2, houter, hs1⟩ := releaseStakes_ok_inv h
  have hfac : s1.challengeFactory = s.challengeFactory := by rw [hs1]
  have hstakes : s1.challengeStakes cid = stakes2 := by rw [hs1]; exact upd1_at ..
  have hbal : s1.totalLockedByToken = bal2 := by rw [hs1]
  have hsecond : releaseOuter cid users (s1.challengeStakes cid) s1.totalLockedByToken =
      .ok (s1.challengeStakes cid, s1.totalLockedByToken, [], []) := by
    rcases releaseOuter_ok_inv cid users (s.challengeStakes cid) s.totalLockedByToken
        stakes2 bal2 evs mvs houter with ⟨hu, -, -⟩ | hall
    · subst hu; rfl
    · exact releaseOuter_noop cid users (s1.challengeStakes cid)
        (by rw [hstakes]; exact hall) s1.totalLockedByToken
  unfold releaseStakes
  rw [if_neg (fun hne => hne (by rw [hfac]; exact hauth))]
  rw [hsecond]
  dsimp only
  rw [upd1_self]

theorem releaseStakes_idempotent_witness :
    releaseStakes c4Start 5 7 [1] =
      .ok (c4Mid, [Event.StakeReleased 1 1 100 7], [TokenMove.transferOut 1 1 100]) ∧
    releaseStakes c4Mid 5 7 [1] = .ok (c4Mid, [], []) :=
  ⟨rfl, releaseStakes_idempotent c4Start c4Mid 5 7 [1] _ _ rfl⟩

theorem transferStake_frame_witness :
    transferStake c3State 5 1 2 1 40 7 =
      .ok (c3After,
           [Event.StakeTransferred 1 2 1 40 7 "Challenge settlement"],
           [TokenMove.transferOut 1 2 40]) ∧
    c3After.challengeStakes = c3State.challengeStakes ∧
    c3After.totalLockedByToken 2 1 = c3State.totalLockedByToken 2 1 :=
  ⟨rfl,
   (transferStake_frame c3State c3After 5 1 2 1 40 7 _ _ rfl).1,
   (transferStake_frame c3State c3After 5 1 2 1 40 7 _ _ rfl).2.2.2.2 2 1
     (Or.inl (by decide))⟩

theorem lockStake_cases (s : EscrowState) (sender user token amount challengeId now : Nat) :
    stepOp s (.lock sender user token amount challengeId now) = s ∨
    (sender = s.challengeFactory ∧ user ≠ 0 ∧ token ≠ 0 ∧ amount ≠ 0 ∧
     stepOp s (.lock sender user token amount challengeId now) =
       lockedState s user token amount challengeId now) := by
  by_cases h1 : sender ≠ s.challengeFactory
  · left
    exact stepOp_of_error s (.lock sender user token amount challengeId now)
      .Unauthorized
      (by simp only [runOp]; unfold lockStake; rw [if_pos h1])
  by_cases h2 : user = 0
  · left
    exact stepOp_of_error s (.lock sender user token amount challengeId now)
      .InvalidArgument (lockStake_invalid (not_not.mp h1) (Or.inl h2))
  by_cases h3 : token = 0
  · left
    exact stepOp_of_error s (.lock sender user token amount challengeId now)
      .InvalidArgument (lockStake_invalid (not_not.mp h1) (Or.inr (Or.inl h3)))
  by_cases h4 : amount = 0
  · left
    exact stepOp_of_error s (.lock sender user token amount challengeId now)
      .InvalidArgument (lockStake_invalid (not_not.mp h1) (Or.inr (Or.inr h4)))
  right
  refine ⟨not_not.mp h1, h2, h3, h4, ?_⟩
  unfold stepOp
  simp only [runOp]
  rw [lockStake_success (not_not.mp h1) h2 h3 h4]

theorem releaseInner_shape (u cid : Nat) (stakes : List LockedStake) :
    ∀ (bal : Nat → Nat → Nat) stakes2 bal2 evs mvs,
      releaseInner u cid stakes bal = .ok (stakes2, bal2, evs, mvs) →
      stakes2.map clearReleased = stakes.map clearReleased := by
  induction stakes with
  | nil =>
    intro bal stakes2 bal2 evs mvs h
    simp only [releaseInner, Except.ok.injEq, Prod.mk.injEq] at h
    obtain ⟨h1, -, -, -⟩ := h
    rw [← h1]
  | cons st0 rest ih =>
    intro bal stakes2 bal2 evs mvs h
    simp only [releaseInner] at h
    by_cases hr : st0.released = true
    · rw [if_pos hr] at h
      cases hrec : releaseInner u cid rest bal with
      | error e => rw [hrec] at h; cases h
      | ok q =>
        obtain ⟨rest2, balq, evsq, mvsq⟩ := q
        rw [hrec] at h
        simp only [Except.ok.injEq, Prod.mk.injEq] at h
        obtain ⟨h1, -, -, -⟩ := h
        rw [← h1]
        simp only [List.map_cons]
        rw [ih bal rest2 balq evsq mvsq hrec]
    · rw [if_neg hr] at h
      cases hsub : subChecked (bal u st0.token) st0.amount with
      | error e => rw [hsub] at h; cases h
      | ok nb =>
        rw [hsub] at h
        dsimp only at h
        cases hrec : releaseInner u cid rest (upd2 bal u st0.token nb) with
        | error e => rw [hrec] at h; cases h
        | ok q =>
          obtain ⟨rest2, balq, evsq, mvsq⟩ := q
          rw [hrec] at h
          simp only [Except.ok.injEq, Prod.mk.injEq] at h
          obtain ⟨h1, -, -, -⟩ := h
          rw [← h1]
          simp only [List.map_cons]
          rw [ih _ rest2 balq evsq mvsq hrec]
          simp [clearReleased]

theorem releaseOuter_shape (cid : Nat) (users : List Nat) :
    ∀ (stakes : List LockedStake) (bal : Nat → Nat → Nat) stakes2 bal2 evs mvs,
      releaseOuter cid users stakes bal = .ok (stakes2, bal2, evs, mvs) →
      stakes2.map clearReleased = stakes.map clearReleased := by
  induction users with
  | nil =>
    intro stakes bal stakes2 bal2 evs mvs h
    simp only [releaseOuter, Except.ok.injEq, Prod.mk.injEq] at h
    obtain ⟨h1, -, -, -⟩ := h
    rw [← h1]
  | cons u rest ih =>
    intro stakes bal stakes2 bal2 evs mvs h
    simp only [releaseOuter] at h
    cases hinner : releaseInner u cid stakes bal with
    | error e => rw [hinner] at h; cases h
    | ok q =>
      obtain ⟨stakes1, bal1, evs1, mvs1⟩ := q
      rw [hinner] at h
      dsimp only at h
      cases houter : releaseOuter cid rest stakes1 bal1 with
      | error e => rw [houter] at h; cases h
      | ok q2 =>
        obtain ⟨stakesB, balB, evsB, mvsB⟩ := q2
        rw [houter] at h
        simp only [Except.ok.injEq, Prod.mk.injEq] at h
        obtain ⟨h1, -, -, -⟩ := h
        rw [← h1, ih stakes1 bal1 stakesB balB evsB mvsB houter]
        exact releaseInner_shape u cid stakes bal stakes1 bal1 evs1 mvs1 hinner

theorem release_step_frame (s : EscrowState) (sender cid : Nat) (users : List Nat) :
    (stepOp s (.release sender cid users)).challengeParticipants =
      s.challengeParticipants ∧
    ∀ c, ((stepOp s (.release sender cid users)).challengeStakes c).map clearReleased =
      (s.challengeStakes c).map clearReleased := by
  cases h : runOp s (.release sender cid users) with
  | error e => rw [stepOp_of_error _ _ _ h]; exact ⟨rfl, fun c => rfl⟩
  | ok q =>
    obtain ⟨s2, evs, mvs⟩ := q
    simp only [runOp] at h
    obtain ⟨-, stakes2, bal2, houter, hs2⟩ := releaseStakes_ok_inv h
    have hstep : stepOp s (.release sender cid users) = s2 := by
      unfold stepOp
      simp only [runOp]
      rw [h]
    rw [hstep, hs2]
    refine ⟨rfl, ?_⟩
    intro c
    dsimp only
    by_cases hc : c = cid
    · subst hc
      rw [upd1_at]
      exact releaseOuter_shape c users (s.challengeStakes c) s.totalLockedByToken
        stakes2 bal2 evs mvs houter
    · rw [upd1_ne _ _ _ _ hc]

theorem transfer_step_frame (s : EscrowState)
    (sender fromA toA token amount challengeId : Nat) :
    (stepOp s (.transfer sender fromA toA token amount challengeId)).challengeStakes =
      s.challengeStakes ∧
    (stepOp s (.transfer sender fromA toA token amount challengeId)).challengeParticipants =
      s.challengeParticipants := by
  cases h : runOp s (.transfer sender fromA toA token amount challengeId) with
  | error e => rw [stepOp_of_error _ _ _ h]; exact ⟨rfl, rfl⟩
  | ok q =>
    obtain ⟨s2, evs, mvs⟩ := q
    simp only [runOp] at h
    obtain ⟨-, -, -, -, -, -, hs2, -, -⟩ := transferStake_ok_inv h
    have hstep : stepOp s (.transfer sender fromA toA token amount challengeId) = s2 := by
      unfold stepOp
      simp only [runOp]
      rw [h]
    rw [hstep, hs2]
    exact ⟨rfl, rfl⟩

theorem setFactory_step_frame (s : EscrowState) (sender newFactory : Nat) :
    (stepOp s (.setFactory sender newFactory)).challengeStakes = s.challengeStakes ∧
    (stepOp s (.setFactory sender newFactory)).challengeParticipants =
      s.challengeParticipants := by
  by_cases h1 : sender ≠ s.owner
  · rw [stepOp_of_error s (.setFactory sender newFactory) .Unauthorized
      (by simp only [runOp]; unfold setChallengeFactory; rw [if_pos h1])]
    exact ⟨rfl, rfl⟩
  by_cases h2 : newFactory = 0
  · rw [stepOp_of_error s (.setFactory sender newFactory) .InvalidArgument
      (by simp only [runOp]; unfold setChallengeFactory; rw [if_neg h1, if_pos h2])]
    exact ⟨rfl, rfl⟩
  have hstep : stepOp s (.setFactory sender newFactory) =
      { s with challengeFactory := newFactory } := by
    unfold stepOp
    simp only [runOp]
    unfold setChallengeFactory
    rw [if_neg h1, if_neg h2]
  rw [hstep]
  exact ⟨rfl, rfl⟩

theorem stepOp_parallel (s : EscrowState) (op : Op) (cid : Nat) :
    ((stepOp s op).challengeParticipants cid = s.challengeParticipants cid ∧
     ((stepOp s op).challengeStakes cid).map clearReleased =
       (s.challengeStakes cid).map clearReleased) ∨
    (∃ sender user token amount now,
       op = .lock sender user token amount cid now ∧
       (stepOp s op).challengeParticipants cid = s.challengeParticipants cid ++ [user] ∧
       (stepOp s op).challengeStakes cid =
         s.challengeStakes cid ++
           [{ token := token, amount := amount, lockedAt := now,
              challengeId := cid, released := false }]) := by
  cases op with
  | lock sender user token amount cid2 now =>
    rcases lockStake_cases s sender user token amount cid2 now with hstep | ⟨-, -, -, -, hstep⟩
    · left; rw [hstep]; exact ⟨rfl, rfl⟩
    · by_cases hc : cid = cid2
      · subst hc
        right
        exact ⟨sender, user, token, amount, now, rfl,
          by rw [hstep]; simp [lockedState, upd1_at],
          by rw [hstep]; simp [lockedState, upd1_at]⟩
      · left
        rw [hstep]
        constructor
        · simp only [lockedState]
          rw [upd1_ne _ _ _ _ hc]
        · simp only [lockedState]
          rw [upd1_ne _ _ _ _ hc]
  | release sender cid2 users =>
    left
    obtain ⟨hp, hs⟩ := release_step_frame s sender cid2 users
    exact ⟨by rw [hp], hs cid⟩
  | transfer sender fromA toA token amount cid2 =>
    left
    obtain ⟨hs, hp⟩ := transfer_step_frame s sender fromA toA token amount cid2
    exact ⟨by rw [hp], by rw [hs]⟩
  | setFactory sender newFactory =>
    left
    obtain ⟨hs, hp⟩ := setFactory_step_frame s sender newFactory
    exact ⟨by rw [hp], by rw [hs]⟩

theorem execOps_length_inv (ops : List Op) :
    ∀ s : EscrowState,
      (∀ cid, (s.challengeStakes cid).length = (s.challengeParticipants cid).length) →
      ∀ cid, ((execOps s ops).challengeStakes cid).length =
        ((execOps s ops).challengeParticipants cid).length := by
  induction ops with
  | nil => intro s hlen cid; exact hlen cid
  | cons op ops ih =>
    intro s hlen cid
    apply ih (stepOp s op)
    intro c
    rcases stepOp_parallel s op c with ⟨hp, hs⟩ | ⟨sender, user, token, amount, now, -, hp, hs⟩
    · have : ((stepOp s op).challengeStakes c).length = (s.challengeStakes c).length := by
        have := congrArg List.length hs
        simpa using this
      rw [this, hp, hlen c]
    · rw [hp, hs]
      simp [hlen c]

theorem ownedUnreleasedSum_append (st : LockedStake) (p u t : Nat) :
    ∀ (ss : List LockedStake) (ps : List Nat), ss.length = ps.length →
      ownedUnreleasedSum (ss ++ [st]) (ps ++ [p]) u t =
        ownedUnreleasedSum ss ps u t +
          (if p = u ∧ st.token = t ∧ st.released = false then st.amount else 0) := by
  intro ss
  induction ss with
  | nil =>
    intro ps hlen
    cases ps with
    | nil => simp [ownedUnreleasedSum]
    | cons b bs => simp at hlen
  | cons a as ih =>
    intro ps hlen
    cases ps with
    | nil => simp at hlen
    | cons b bs =>
      rw [show (a :: as) ++ [st] = a :: (as ++ [st]) from rfl,
          show (b :: bs) ++ [p] = b :: (bs ++ [p]) from rfl]
      simp only [ownedUnreleasedSum]
      rw [ih bs (by simpa using hlen)]
      omega

theorem map_sum_update :
    ∀ (cids : List Nat) (f g : Nat → Nat) (c0 d : Nat),
      cids.Nodup → c0 ∈ cids → (∀ c, c ≠ c0 → g c = f c) → g c0 = f c0 + d →
      (cids.map g).sum = (cids.map f).sum + d := by
  intro cids
  induction cids with
  | nil => intro f g c0 d hnd hmem hne heq; simp at hmem
  | cons c cs ih =>
    intro f g c0 d hnd hmem hne heq
    simp only [List.map_cons, List.sum_cons]
    rcases List.mem_cons.mp hmem with hc | hc
    · have hnotin : c ∉ cs := (List.nodup_cons.mp hnd).1
      have hcs : cs.map g = cs.map f := by
        apply List.map_congr_left
        intro x hx
        apply hne
        intro hxc
        apply hnotin
        have hx0 : c0 ∈ cs := by rw [← hxc]; exact hx
        rw [← hc]
        exact hx0
      rw [hcs, ← hc, heq]
      omega
    · have hcne : c ≠ c0 := by
        intro hC
        exact (List.nodup_cons.mp hnd).1 (hC ▸ hc)
      rw [hne c hcne, ih f g c0 d (List.nodup_cons.mp hnd).2 hc hne heq]
      omega

theorem lock_preserves_balInv {s : EscrowState} {cids : List Nat}
    (hnd : cids.Nodup) {sender user token amount challengeId now : Nat}
    (hcid : challengeId ∈ cids) (hinv : BalInv s cids) :
    BalInv (stepOp s (.lock sender user token amount challengeId now)) cids := by
  rcases lockStake_cases s sender user token amount challengeId now with
    hstep | ⟨-, -, -, -, hstep⟩
  · rw [hstep]; exact hinv
  rw [hstep]
  constructor
  · intro c
    by_cases hc : c = challengeId
    · subst hc
      simp [lockedState, upd1_at, hinv.1 c]
    · simp only [lockedState]
      rw [upd1_ne _ _ _ _ hc, upd1_ne _ _ _ _ hc]
      exact hinv.1 c
  · intro u t
    have hrhs : totalOwnedUnreleased (lockedState s user token amount challengeId now)
        cids u t =
        totalOwnedUnreleased s cids u t + (if user = u ∧ token = t then amount else 0) := by
      unfold totalOwnedUnreleased
      apply map_sum_update cids _ _ challengeId _ hnd hcid
      · intro c hcne
        simp only [lockedState]
        rw [upd1_ne _ _ _ _ hcne, upd1_ne _ _ _ _ hcne]
      · simp only [lockedState]
        rw [upd1_at, upd1_at,
            ownedUnreleasedSum_append _ _ _ _ _ _ (hinv.1 challengeId)]
        simp
    rw [hrhs, ← hinv.2 u t]
    simp only [lockedState]
    by_cases hut : u = user ∧ t = token
    · obtain ⟨hu, ht⟩ := hut
      subst hu
      subst ht
      rw [upd2_at]
      simp
    · rw [upd2_ne _ _ _ _ _ _ (by tauto)]
      have hflip : ¬(user = u ∧ token = t) := fun hx => hut ⟨hx.1.symm, hx.2.symm⟩
      simp [hflip]

theorem execOps_balInv (cids : List Nat) (hnd : cids.Nodup) :
    ∀ ops : List Op,
      (∀ op ∈ ops, ∃ sender user token amount challengeId now,
         op = Op.lock sender user token amount challengeId now ∧ challengeId ∈ cids) →
      ∀ s : EscrowState, BalInv s cids → BalInv (execOps s ops) cids := by
  intro ops
  induction ops with
  | nil => intro hops s hinv; exact hinv
  | cons op ops ih =>
    intro hops s hinv
    obtain ⟨sender, user, token, amount, challengeId, now, hop, hcid⟩ :=
      hops op (by simp)
    subst hop
    exact ih (fun op2 h2 => hops op2 (by simp [h2])) _
      (lock_preserves_balInv hnd hcid hinv)

/-- Claim C2 counterexample: after the two-call sequence lockStake(user 1,
token 1, 100, challenge 7) followed by transferStake(1, 2, token 1, 100,
challenge 7), the LockedBalance entry of (1,1) is 0 while the unique stake
record, owned by user 1, is still unreleased with amount 100 — transferStake
adjusts the aggregate balance without flagging any stake record, so the
claimed invariant fails for sequences containing transferStake. -/
theorem lockedBalance_invariant_counterexample :
    c2Bad.totalLockedByToken 1 1 = 0 ∧
    totalOwnedUnreleased c2Bad [7] 1 1 = 100 ∧
    ¬ (c2Bad.totalLockedByToken 1 1 = totalOwnedUnreleased c2Bad [7] 1 1) := by
  refine ⟨rfl, rfl, ?_⟩
  decide

/-- Claim C2 amended: for every sequence consisting only of lockStake calls whose
challenge ids lie in a duplicate-free list cids, each LockedBalance entry
equals the sum of the amounts of the unreleased stake records owned by that
user for that token (ownership read off the parallel participants array). -/
theorem lockedBalance_matches_unreleased_sum_lock_only :
    ∀ (o f : Nat) (cids : List Nat) (ops : List Op),
      cids.Nodup →
      (∀ op ∈ ops, isLockWithin cids op = true) →
      ∀ u t, (execOps (initState o f) ops).totalLockedByToken u t =
        totalOwnedUnreleased (execOps (initState o f) ops) cids u t := by
  intro o f cids ops hnd hops u t
  have hops2 : ∀ op ∈ ops, ∃ sender user token amount challengeId now,
      op = Op.lock sender user token amount challengeId now ∧ challengeId ∈ cids := by
    intro op hop
    have hb := hops op hop
    cases op with
    | lock sender user token amount challengeId now =>
      refine ⟨sender, user, token, amount, challengeId, now, rfl, ?_⟩
      exact of_decide_eq_true (by simpa [isLockWithin] using hb)
    | release sender challengeId users => simp [isLockWithin] at hb
    | transfer sender fromA toA token amount challengeId => simp [isLockWithin] at hb
    | setFactory sender newFactory => simp [isLockWithin] at hb
  have hinv0 : BalInv (initState o f) cids := by
    constructor
    · intro c; rfl
    · intro u2 t2
      unfold totalOwnedUnreleased
      symm
      apply List.sum_eq_zero
      intro x hx
      obtain ⟨c, -, hxc⟩ := List.mem_map.mp hx
      rw [← hxc]
      rfl
  exact (execOps_balInv cids hnd ops hops2 (initState o f) hinv0).2 u t

theorem lockedBalance_matches_unreleased_sum_lock_only_witness :
    ([7] : List Nat).Nodup ∧
    (∀ op ∈ ([.lock 5 1 1 100 7 0, .lock 5 1 1 50 7 0] : List Op),
       isLockWithin [7] op = true) ∧
    c2Good.totalLockedByToken 1 1 = totalOwnedUnreleased c2Good [7] 1 1 :=
  ⟨by decide, by decide,
   lockedBalance_matches_unreleased_sum_lock_only 9 5 [7]
     [.lock 5 1 1 100 7 0, .lock 5 1 1 50 7 0] (by decide) (by decide) 1 1⟩

/-- Claim C10: the stake array and the participants array of every challenge are
parallel: they always have equal length starting from a fresh contract, and
every step either leaves both untouched (up to released flags) or appends
exactly one stake record together with its depositor, so the i-th
participant entry is the user whose lockStake created the i-th stake
record; the LockedStake structure itself carries no owner field. -/
theorem stake_participant_parallel :
    (∀ (o f : Nat) (ops : List Op) (cid : Nat),
       ((execOps (initState o f) ops).challengeStakes cid).length =
         ((execOps (initState o f) ops).challengeParticipants cid).length) ∧
    (∀ (s : EscrowState) (op : Op) (cid : Nat),
       ((stepOp s op).challengeParticipants cid = s.challengeParticipants cid ∧
        ((stepOp s op).challengeStakes cid).map clearReleased =
          (s.challengeStakes cid).map clearReleased) ∨
       (∃ sender user token amount now,
          op = .lock sender user token amount cid now ∧
          (stepOp s op).challengeParticipants cid =
            s.challengeParticipants cid ++ [user] ∧
          (stepOp s op).challengeStakes cid =
            s.challengeStakes cid ++
              [{ token := token, amount := amount, lockedAt := now,
                 challengeId := cid, released := false }])) := by
  constructor
  · intro o f ops cid
    exact execOps_length_inv ops (initState o f) (fun c => rfl) cid
  · exact stepOp_parallel

end ChallengeEscrow
